import Mathlib

/-!
Verification of the code lookup handler (`handler.go`, package `code`).

A shallow embedding of `CodeHandler`, its constructors and `Load`, followed by
the properties claimed of them.

Conventions of the embedding.

* A Go `string` is a Lean `String`; positions are counted in characters.  The
  two separators the handler looks for, `"/"` and `" "`, are one-byte ASCII
  characters, so on well-formed UTF-8 the character-level and byte-level
  results of `strings.LastIndex` / `strings.Trim` and of slicing at the found
  position agree.
* A Go slice is the list of its elements.
* A Go `error` is represented by the text its `Error()` method returns; a
  nil-able value is an `Option`.
* `http.ResponseWriter`, the loader and the two callbacks are collaborators of
  the handler.  Every call the handler makes on them is appended, in program
  order, to a list of `Event`s; `Load` returns that list together with a flag
  telling whether the run stopped in a run-time panic.
* `json.Marshal` belongs to the serialization library; the bytes it produces
  for a payload `p` are represented by `Bytes.marshal p`.
-/

namespace code

/-! ## Library functions called by the handler -/

namespace strings

/-- Go `strings.TrimLeft`: drop the leading characters that occur in `cutset`. -/
def TrimLeft (s cutset : String) : String :=
  ⟨s.data.dropWhile (fun ch => cutset.data.contains ch)⟩

/-- Go `strings.TrimRight`: drop the trailing characters that occur in `cutset`. -/
def TrimRight (s cutset : String) : String :=
  ⟨(s.data.reverse.dropWhile (fun ch => cutset.data.contains ch)).reverse⟩

/-- Go `strings.Trim`: `s` is returned unchanged when `s` or `cutset` is empty,
otherwise the trailing and then the leading characters of `cutset` are cut. -/
def Trim (s cutset : String) : String :=
  if s = "" ∨ cutset = "" then s else TrimLeft (TrimRight s cutset) cutset

/-- Scan downwards from position `k` for a position at which `substr` occurs in
`s`; `-1` when there is none at or below `k`. -/
def lastIndexFrom (s substr : List Char) : Nat → Int
  | 0 => if substr.isPrefixOf s then 0 else -1
  | k + 1 =>
    if substr.isPrefixOf (s.drop (k + 1)) then ((k + 1 : Nat) : Int)
    else lastIndexFrom s substr k

/-- Go `strings.LastIndex`: the position of the last occurrence of `substr` in
`s`, or `-1` when `substr` does not occur in `s`. -/
def LastIndex (s substr : String) : Int :=
  if s.length < substr.length then -1
  else lastIndexFrom s.data substr.data (s.length - substr.length)

end strings

/-- Go slice expression `s[i:]` on a string. -/
def sliceFrom (s : String) (i : Int) : String :=
  ⟨s.data.drop i.toNat⟩

/-- The path of a request target in origin form, as `net/http` puts it in
`r.URL.Path` when it parses the request line: the text of `r.RequestURI` before
the first `?`; what follows the `?` is the query string.  Percent-decoding of
the path is left aside. -/
def requestPath (requestURI : String) : String :=
  ⟨requestURI.data.takeWhile (fun ch => ch != '?')⟩

/-- The value of `r.Context()`; only its identity matters to the handler. -/
abbrev Context := Nat

/-- An `io.Reader` such as `r.Body`, described by what reading it to the end
yields: the bytes read and the error met, if any. -/
structure Reader where
  data : String
  err : Option String
deriving DecidableEq, Repr

namespace ioutil

/-- Go `ioutil.ReadAll`: the data read and the error that stopped the reading. -/
def ReadAll (b : Reader) : String × Option String :=
  (b.data, b.err)

end ioutil

/-- The fields of `http.Request` that `Load` uses. -/
structure Request where
  Method : String
  RequestURI : String
  Body : Reader
  Context : Context
deriving DecidableEq, Repr

/-! ## Data model -/

/-- Modelled from the spec: the declaration of `CodeModel` is not part of
`handler.go`.  The spec describes a code record by its string fields `Id` and
`Name`, which are the only fields `Load` reads. -/
structure CodeModel where
  Id : String
  Name : String
deriving DecidableEq, Repr

/-- A Go `map[string]string`, kept as its entries with pairwise distinct keys. -/
structure GoMap where
  entries : List (String × String)
deriving DecidableEq, Repr

namespace GoMap

/-- The result of `make(map[string]string)`. -/
def empty : GoMap := ⟨[]⟩

/-- Go `m[k] = v`: the entry of `k` is replaced when there is one, added otherwise. -/
def set (m : GoMap) (k v : String) : GoMap :=
  if m.entries.any (fun e => e.1 == k) then
    ⟨m.entries.map (fun e => if e.1 = k then (k, v) else e)⟩
  else ⟨m.entries ++ [(k, v)]⟩

/-- Go `v, ok := m[k]`. -/
def get? (m : GoMap) (k : String) : Option String :=
  (m.entries.find? (fun e => e.1 == k)).map (fun e => e.2)

/-- The keys of the map. -/
def keys (m : GoMap) : List String :=
  m.entries.map (fun e => e.1)

end GoMap

/-- The values `Load` hands to `json.Marshal` through `respond`'s `interface{}`
parameter. -/
inductive Payload where
  | text (s : String)
  | records (rs : List CodeModel)
  | maps (ms : List GoMap)
deriving DecidableEq, Repr

/-- The byte sequences passed to `w.Write`. -/
inductive Bytes where
  | ofString (s : String)
  | marshal (p : Payload)
deriving DecidableEq, Repr

/-- The calls `Load` makes on its collaborators.  `Codes ctx master` stands for
the call expression `c.Codes(ctx, master)` being reached with these arguments;
when the field `Codes` is nil that call is a run-time panic. -/
inductive Event where
  | ReadAll
  | Codes (ctx : Context) (master : String)
  | Error (ctx : Context) (msg : String)
  | Log (ctx : Context) (resource action : String) (success : Bool) (desc : String)
  | HeaderSet (key value : String)
  | WriteHeader (code : Nat)
  | Write (b : Bytes)
deriving DecidableEq, Repr

/-- The type of the field `Codes`. -/
abbrev LoadFunc := Context → String → List CodeModel × Option String

/-- The type of the field `Error`. -/
abbrev ErrorFunc := Context → String → Unit

/-- The type of the field `Log`. -/
abbrev LogFunc := Context → String → String → Bool → String → Option String

structure CodeHandlerConfig where
  Master : Option Bool
  Id : String
  Name : String
  Resource : String
  Action : String
deriving DecidableEq, Repr

structure CodeHandler where
  Codes : Option LoadFunc
  RequiredMaster : Bool
  Error : Option ErrorFunc
  Log : Option LogFunc
  Resource : String
  Action : String
  Id : String
  Name : String

def internalServerError : String := "Internal Server Error"

def StatusOK : Nat := 200
def StatusBadRequest : Nat := 400
def StatusInternalServerError : Nat := 500

/-! ## Constructors -/

def NewCodeHandlerWithLog (load : Option LoadFunc) (logError : Option ErrorFunc)
    (requiredMaster : Bool) (writeLog : Option LogFunc) (options : List String) :
    CodeHandler :=
  let resource :=
    if options.length ≥ 1 ∧ (options.getD 0 "").length > 0 then options.getD 0 ""
    else "code"
  let action :=
    if options.length ≥ 2 ∧ (options.getD 1 "").length > 0 then options.getD 1 ""
    else "load"
  { Codes := load, Resource := resource, Action := action,
    RequiredMaster := requiredMaster, Log := writeLog, Error := logError,
    Id := "", Name := "" }

def NewDefaultCodeHandler (load : Option LoadFunc) (logError : Option ErrorFunc)
    (options : List (Option LogFunc)) : CodeHandler :=
  let writeLog : Option LogFunc :=
    if options.length ≥ 1 then options.getD 0 none else none
  NewCodeHandlerWithLog load logError true writeLog ["", ""]

def NewCodeHandlerByConfig (load : Option LoadFunc) (c : CodeHandlerConfig)
    (logError : Option ErrorFunc) (options : List (Option LogFunc)) : CodeHandler :=
  let requireMaster : Bool :=
    match c.Master with
    | some b => b
    | none => true
  let writeLog : Option LogFunc :=
    if options.length ≥ 1 then options.getD 0 none else none
  let h := NewCodeHandlerWithLog load logError requireMaster writeLog [c.Resource, c.Action]
  { h with Id := c.Id, Name := c.Name }

def NewCodeHandler (load : Option LoadFunc) (logError : Option ErrorFunc)
    (requiredMaster : Bool) (options : List (Option LogFunc)) : CodeHandler :=
  let writeLog : Option LogFunc :=
    if options.length ≥ 1 then options.getD 0 none else none
  NewCodeHandlerWithLog load logError requiredMaster writeLog ["", ""]

/-! ## Request handling -/

/-- The outcome of one run of `Load`: the calls made, in order, and whether the
run ended in a run-time panic. -/
structure Outcome where
  events : List Event
  panicked : Bool
deriving DecidableEq, Repr

def respondString (w : List Event) (code : Nat) (result : String) : List Event :=
  w ++ [Event.WriteHeader code, Event.Write (Bytes.ofString result)]

def respond (w : List Event) (r : Request) (code : Nat) (result : Payload)
    (writeLog : Option LogFunc) (resource action : String) (success : Bool)
    (desc : String) : List Event :=
  let response := Bytes.marshal result
  let w := w ++ [Event.HeaderSet "Content-Type" "application/json",
                 Event.WriteHeader code, Event.Write response]
  match writeLog with
  | some _ => w ++ [Event.Log r.Context resource action success desc]
  | none => w

def respondError (w : List Event) (r : Request) (code : Nat) (result : Payload)
    (logError : Option ErrorFunc) (resource action : String) (err : String)
    (writeLog : Option LogFunc) : List Event :=
  let w :=
    match logError with
    | some _ => w ++ [Event.Error r.Context err]
    | none => w
  respond w r code result writeLog resource action false err

def succeed (w : List Event) (r : Request) (code : Nat) (result : Payload)
    (writeLog : Option LogFunc) (resource action : String) : List Event :=
  respond w r code result writeLog resource action true ""

/-- Lines 93–109 of `Load`: the call of the loader with the category `code`
and the response to its result.  `w` holds the calls made so far.  Calling
the nil function value of an unset `Codes` field is a run-time panic. -/
def Load.codes (c : CodeHandler) (w : List Event) (r : Request) (code : String) : Outcome :=
  let w := w ++ [Event.Codes r.Context code]
  match c.Codes with
  | none => ⟨w, true⟩
  | some load =>
    match load r.Context code with
    | (_, some er4) =>
      ⟨respondError w r StatusInternalServerError (Payload.text internalServerError)
        c.Error c.Resource c.Action er4 c.Log, false⟩
    | (result, none) =>
      if c.Id.length = 0 ∧ c.Name.length = 0 then
        ⟨succeed w r StatusOK (Payload.records result) c.Log c.Resource c.Action, false⟩
      else
        let rs : List GoMap :=
          result.foldl
            (fun rs r => rs ++ [((GoMap.empty.set c.Id r.Id).set c.Name r.Name)]) []
        ⟨succeed w r StatusOK (Payload.maps rs) c.Log c.Resource c.Action, false⟩

def Load (c : CodeHandler) (r : Request) : Outcome :=
  if c.RequiredMaster then
    if r.Method = "GET" then
      let i := strings.LastIndex r.RequestURI "/"
      if i ≥ 0 then Load.codes c [] r (sliceFrom r.RequestURI (i + 1))
      else Load.codes c [] r ""
    else
      match ioutil.ReadAll r.Body with
      | (_, some _) =>
        ⟨respondString [Event.ReadAll] StatusBadRequest "Body cannot is empty", false⟩
      | (b, none) => Load.codes c [Event.ReadAll] r (strings.Trim b " ")
  else Load.codes c [] r ""

/-! ## Observations on a run -/

/-- The status codes passed to `w.WriteHeader`, in order. -/
def statuses (t : List Event) : List Nat :=
  t.filterMap (fun e => match e with | Event.WriteHeader c => some c | _ => none)

/-- The byte sequences passed to `w.Write`, in order. -/
def written (t : List Event) : List Bytes :=
  t.filterMap (fun e => match e with | Event.Write b => some b | _ => none)

/-- The header fields set on the response, in order. -/
def headers (t : List Event) : List (String × String) :=
  t.filterMap (fun e => match e with | Event.HeaderSet k v => some (k, v) | _ => none)

/-- The calls of the loader, in order. -/
def loaderCalls (t : List Event) : List (Context × String) :=
  t.filterMap (fun e => match e with | Event.Codes ctx m => some (ctx, m) | _ => none)

/-- The calls of the error-reporting callback, in order. -/
def errorCalls (t : List Event) : List (Context × String) :=
  t.filterMap (fun e => match e with | Event.Error ctx m => some (ctx, m) | _ => none)

/-- The calls of the audit logger, in order. -/
def logCalls (t : List Event) : List (Context × String × String × Bool × String) :=
  t.filterMap (fun e =>
    match e with
    | Event.Log ctx res act ok desc => some (ctx, res, act, ok, desc)
    | _ => none)

/-- The number of times the request body was read. -/
def bodyReads (t : List Event) : Nat :=
  (t.filterMap (fun e => match e with | Event.ReadAll => some () | _ => none)).length

/-! ## The examples of the specification -/

/-- The two records of the spec's examples. -/
def exampleRecords : List CodeModel :=
  [⟨"1", "A"⟩, ⟨"2", "B"⟩]

/-- A loader that knows the category `42` only. -/
def exampleLoader : LoadFunc :=
  fun _ master =>
    if master = "42" then (exampleRecords, none) else ([], some "unknown category")

/-- An audit logger; what it does with an entry is its own business. -/
def exampleLog : LogFunc :=
  fun _ _ _ _ _ => none

/-- An error-reporting callback. -/
def exampleError : ErrorFunc :=
  fun _ _ => ()

/-- A handler built by `NewCodeHandler` that requires a category and has both
callbacks. -/
def exampleHandler : CodeHandler :=
  NewCodeHandler (some exampleLoader) (some exampleError) true [some exampleLog]

/-- A handler with the label overrides `code` and `label`. -/
def exampleRemapHandler : CodeHandler :=
  NewCodeHandlerByConfig (some exampleLoader) ⟨some true, "code", "label", "", ""⟩
    (some exampleError) [some exampleLog]

/-- A read-style request for the category `42`. -/
def exampleGet : Request :=
  ⟨"GET", "/api/group/42", ⟨"", none⟩, 0⟩

/-- A request that carries the category `abc`, with spaces around it, in its
body. -/
def examplePost : Request :=
  ⟨"POST", "/api/group", ⟨"  abc  ", none⟩, 0⟩

/-- A read-style request for a category the loader does not know. -/
def exampleUnknownGet : Request :=
  ⟨"GET", "/api/group/7", ⟨"", none⟩, 0⟩

/-- A read-style request for the category `42` with a query string. -/
def exampleQueryGet : Request :=
  ⟨"GET", "/api/group/42?lang=en", ⟨"", none⟩, 0⟩

/-- A read-style request for the category `7` whose query string has a `/`. -/
def exampleQuerySlashGet : Request :=
  ⟨"GET", "/api/group/7?next=/x/42", ⟨"", none⟩, 0⟩

/-- A request whose body breaks off while it is read. -/
def exampleBrokenPost : Request :=
  ⟨"POST", "/api/group", ⟨"  4", some "unexpected EOF"⟩, 0⟩

/-- A handler that requires no category. -/
def exampleOpenHandler : CodeHandler :=
  NewCodeHandler (some exampleLoader) (some exampleError) false [some exampleLog]

/-- A handler without a loader. -/
def exampleNoLoaderHandler : CodeHandler :=
  NewCodeHandler none (some exampleError) true [some exampleLog]

/-- A handler without callbacks. -/
def exampleBareHandler : CodeHandler :=
  NewCodeHandler (some exampleLoader) none true []

/-- A handler whose id-label and name-label are the same label. -/
def exampleSameLabelHandler : CodeHandler :=
  NewCodeHandlerByConfig (some exampleLoader) ⟨some true, "code", "code", "", ""⟩
    (some exampleError) [some exampleLog]

/-! ## Facts about the library functions -/

theorem string_length_eq_zero (s : String) : s.length = 0 ↔ s = "" := by
  cases s with
  | mk l =>
    cases l with
    | nil => simp [String.length]
    | cons a t =>
      simp [String.length]
      intro h
      have := congrArg String.data h
      simp at this

theorem isPrefixOf_singleton (c : Char) (l : List Char) :
    [c].isPrefixOf l = true ↔ l.head? = some c := by
  cases l with
  | nil => simp [List.isPrefixOf]
  | cons a t =>
    simp [List.isPrefixOf]
    exact eq_comm

/-- What the downward scan for a one-character separator returns. -/
theorem lastIndexFrom_singleton (s : List Char) (c : Char) (k : Nat) :
    (strings.lastIndexFrom s [c] k = -1 ∧ ∀ j, j ≤ k → s[j]? ≠ some c) ∨
    (∃ i : Nat, i ≤ k ∧ strings.lastIndexFrom s [c] k = (i : Int) ∧ s[i]? = some c ∧
      ∀ j, i < j → j ≤ k → s[j]? ≠ some c) := by
  induction k with
  | zero =>
    unfold strings.lastIndexFrom
    by_cases h : [c].isPrefixOf s = true
    · right
      refine ⟨0, le_refl _, by simp [h], ?_, ?_⟩
      · have := (isPrefixOf_singleton c s).1 h
        simpa [List.head?_eq_getElem?] using this
      · intro j h1 h2; omega
    · left
      refine ⟨by simp [h], ?_⟩
      intro j hj
      have hj0 : j = 0 := by omega
      subst hj0
      intro hc
      apply h
      rw [isPrefixOf_singleton]
      simpa [List.head?_eq_getElem?] using hc
  | succ k ih =>
    unfold strings.lastIndexFrom
    by_cases h : [c].isPrefixOf (s.drop (k + 1)) = true
    · right
      refine ⟨k + 1, le_refl _, by simp [h], ?_, ?_⟩
      · have := (isPrefixOf_singleton c _).1 h
        simpa using this
      · intro j h1 h2; omega
    · have hk : s[k + 1]? ≠ some c := by
        intro hc
        apply h
        rw [isPrefixOf_singleton]
        simpa using hc
      rcases ih with ⟨h1, h2⟩ | ⟨i, hi, h1, h2, h3⟩
      · left
        refine ⟨by simp [h, h1], ?_⟩
        intro j hj
        by_cases hjk : j = k + 1
        · subst hjk; exact hk
        · exact h2 j (by omega)
      · right
        refine ⟨i, by omega, by simp [h, h1], h2, ?_⟩
        intro j hj1 hj2
        by_cases hjk : j = k + 1
        · subst hjk; exact hk
        · exact h3 j hj1 (by omega)

/-- A negative result of `strings.LastIndex s "/"` means that `s` has no `/`. -/
theorem LastIndex_slash_neg (s : String) (h : ¬ strings.LastIndex s "/" ≥ 0) :
    '/' ∉ s.data := by
  intro hmem
  obtain ⟨j, hj, hjc⟩ := List.getElem_of_mem hmem
  have hlen : ¬ s.length < ("/" : String).length := by
    have : ("/" : String).length = 1 := by decide
    simp only [String.length, this] at *
    omega
  unfold strings.LastIndex at h
  rw [if_neg hlen] at h
  rcases lastIndexFrom_singleton s.data '/' (s.length - ("/" : String).length) with
    ⟨_, h2⟩ | ⟨i, _, h1, _, _⟩
  · have h1 : ("/" : String).length = 1 := by decide
    apply h2 j (by simp only [String.length] at *; omega)
    rw [List.getElem?_eq_getElem hj, hjc]
  · apply h
    have hd : ("/" : String).data = ['/'] := rfl
    rw [hd, h1]
    exact Int.natCast_nonneg i

/-- A non-negative result of `strings.LastIndex s "/"` is the position of a `/`
after which `s` has no further `/`. -/
theorem LastIndex_slash_nonneg (s : String) (h : strings.LastIndex s "/" ≥ 0) :
    ∃ pre, s.data = pre ++ '/' :: (sliceFrom s (strings.LastIndex s "/" + 1)).data ∧
      '/' ∉ (sliceFrom s (strings.LastIndex s "/" + 1)).data := by
  have h1 : ("/" : String).length = 1 := by decide
  have hd : ("/" : String).data = ['/'] := rfl
  unfold strings.LastIndex at h ⊢
  by_cases hlen : s.length < ("/" : String).length
  · rw [if_pos hlen] at h
    exact absurd h (by decide)
  · rw [if_neg hlen] at h ⊢
    rw [hd, h1] at h ⊢
    rcases lastIndexFrom_singleton s.data '/' (s.length - 1) with
      ⟨h2, _⟩ | ⟨i, hi, h2, h3, h4⟩
    · rw [h2] at h
      exact absurd h (by decide)
    · rw [h2]
      have hi' : i < s.data.length := by
        rcases List.getElem?_eq_some_iff.1 h3 with ⟨hlt, _⟩
        exact hlt
      have hc : s.data[i] = '/' := by
        rcases List.getElem?_eq_some_iff.1 h3 with ⟨_, hv⟩
        exact hv
      have hslice : (sliceFrom s ((i : Int) + 1)).data = s.data.drop (i + 1) := by
        simp only [sliceFrom]
        congr 1
      rw [hslice]
      refine ⟨s.data.take i, ?_, ?_⟩
      · rw [← hc, ← List.drop_eq_getElem_cons hi', List.take_append_drop]
      · intro hmem
        obtain ⟨n, hn, hnc⟩ := List.getElem_of_mem hmem
        rw [List.getElem_drop] at hnc
        rw [List.length_drop] at hn
        apply h4 (i + 1 + n) (by omega) (by simp only [String.length] at *; omega)
        rw [List.getElem?_eq_getElem (by omega), hnc]

/-- The text after the last `/` is determined by any splitting of the string at
a `/` that is followed by no further `/`. -/
theorem after_last_slash_unique (p q m n : List Char) (hm : '/' ∉ m) (hn : '/' ∉ n)
    (h : p ++ '/' :: m = q ++ '/' :: n) : m = n := by
  induction p generalizing q with
  | nil =>
    cases q with
    | nil => simpa using h
    | cons b q =>
      simp at h
      exact absurd (by rw [h.2]; simp) hm
  | cons a p ih =>
    cases q with
    | nil =>
      simp at h
      exact absurd (by rw [← h.2]; simp) hn
    | cons b q =>
      simp at h
      exact ih q h.2

/-- A request target without a query string is its own path. -/
theorem requestPath_of_no_query (uri : String) (h : '?' ∉ uri.data) :
    requestPath uri = uri := by
  apply String.ext
  simp only [requestPath]
  rw [List.takeWhile_eq_self_iff]
  intro x hx
  have hne : x ≠ '?' := fun hq => h (hq ▸ hx)
  simpa using hne

/-- The characters of `strings.Trim s " "`. -/
theorem Trim_space_data (s : String) :
    (strings.Trim s " ").data =
      ((s.data.reverse.dropWhile (fun ch => ch == ' ')).reverse).dropWhile
        (fun ch => ch == ' ') := by
  have hcut : ∀ ch : Char, (" " : String).data.contains ch = (ch == ' ') := by
    intro ch
    have hd : (" " : String).data = [' '] := rfl
    rw [hd]
    by_cases h : ch = ' ' <;> simp [List.contains, h]
  unfold strings.Trim
  by_cases hs : s = ""
  · subst hs
    simp
  · have hne : ¬ (s = "" ∨ (" " : String) = "") := by
      intro h
      rcases h with h | h
      · exact hs h
      · exact absurd h (by decide)
    rw [if_neg hne]
    simp only [strings.TrimLeft, strings.TrimRight, hcut]

/-- Cutting the spaces at both ends of a list of characters: what is cut is
spaces only, and what is left neither starts nor ends with a space. -/
theorem trim_space_spec (l : List Char) :
    ∃ pre post : List Char,
      l = pre ++ ((l.reverse.dropWhile (fun ch => ch == ' ')).reverse).dropWhile
            (fun ch => ch == ' ') ++ post ∧
      (∀ x ∈ pre, x = ' ') ∧ (∀ x ∈ post, x = ' ') ∧
      (((l.reverse.dropWhile (fun ch => ch == ' ')).reverse).dropWhile
            (fun ch => ch == ' ')).head? ≠ some ' ' ∧
      (((l.reverse.dropWhile (fun ch => ch == ' ')).reverse).dropWhile
            (fun ch => ch == ' ')).getLast? ≠ some ' ' := by
  generalize hp : (fun ch : Char => ch == ' ') = p
  have hpx : ∀ x, p x = true → x = ' ' := by
    intro x hx
    rw [← hp] at hx
    simpa using hx
  have hsp : p ' ' = true := by rw [← hp]; simp
  generalize ha : (l.reverse.dropWhile p).reverse = a
  have hl : l = a ++ (l.reverse.takeWhile p).reverse := by
    rw [← ha, ← List.reverse_append, List.takeWhile_append_dropWhile, List.reverse_reverse]
  have hlast : a.getLast? ≠ some ' ' := by
    rw [← ha, List.getLast?_reverse]
    intro hc
    have := List.head?_dropWhile_not p l.reverse
    rw [hc] at this
    simp [hsp] at this
  refine ⟨a.takeWhile p, (l.reverse.takeWhile p).reverse, ?_, ?_, ?_, ?_, ?_⟩
  · rw [List.takeWhile_append_dropWhile]
    exact hl
  · intro x hx
    exact hpx x (List.mem_takeWhile_imp hx)
  · intro x hx
    exact hpx x (List.mem_takeWhile_imp (List.mem_reverse.1 hx))
  · intro hc
    have := List.head?_dropWhile_not p a
    rw [hc] at this
    simp [hsp] at this
  · intro hc
    apply hlast
    have hne : a.dropWhile p ≠ [] := by
      intro h0
      rw [h0] at hc
      simp at hc
    have hsplit : a = a.takeWhile p ++ a.dropWhile p :=
      (List.takeWhile_append_dropWhile p a).symm
    rw [hsplit, List.getLast?_append_of_ne_nil _ hne]
    exact hc

/-! ## Facts about maps -/

theorem GoMap.set_set_empty (a x b y : String) :
    (GoMap.empty.set a x).set b y =
      if a = b then ⟨[(b, y)]⟩ else ⟨[(a, x), (b, y)]⟩ := by
  by_cases h : a = b
  · simp [GoMap.set, GoMap.empty, h]
  · simp [GoMap.set, GoMap.empty, h]

/-- The loop of `Load` that builds the remapped sequence maps every record to
one mapping, in order. -/
theorem remap_foldl (f : CodeModel → GoMap) (rs : List CodeModel) (acc : List GoMap) :
    rs.foldl (fun acc r => acc ++ [f r]) acc = acc ++ rs.map f := by
  induction rs generalizing acc with
  | nil => simp
  | cons r rs ih => simp [ih]

/-! ## Facts about `Load` -/

theorem Load_not_required (c : CodeHandler) (r : Request) (h : c.RequiredMaster = false) :
    Load c r = Load.codes c [] r "" := by
  simp [Load, h]

theorem Load_get_slash (c : CodeHandler) (r : Request) (h : c.RequiredMaster = true)
    (hm : r.Method = "GET") (hi : strings.LastIndex r.RequestURI "/" ≥ 0) :
    Load c r =
      Load.codes c [] r (sliceFrom r.RequestURI (strings.LastIndex r.RequestURI "/" + 1)) := by
  simp only [Load, h, hm, if_true]
  rw [if_pos hi]

theorem Load_get_no_slash (c : CodeHandler) (r : Request) (h : c.RequiredMaster = true)
    (hm : r.Method = "GET") (hi : ¬ strings.LastIndex r.RequestURI "/" ≥ 0) :
    Load c r = Load.codes c [] r "" := by
  simp only [Load, h, hm, if_true]
  rw [if_neg hi]

theorem Load_body_unreadable (c : CodeHandler) (r : Request) (h : c.RequiredMaster = true)
    (hm : r.Method ≠ "GET") (e : String) (he : r.Body.err = some e) :
    Load c r =
      ⟨[Event.ReadAll, Event.WriteHeader 400,
        Event.Write (Bytes.ofString "Body cannot is empty")], false⟩ := by
  simp [Load, h, hm, ioutil.ReadAll, he, respondString, StatusBadRequest]

theorem Load_body_readable (c : CodeHandler) (r : Request) (h : c.RequiredMaster = true)
    (hm : r.Method ≠ "GET") (he : r.Body.err = none) :
    Load c r = Load.codes c [Event.ReadAll] r (strings.Trim r.Body.data " ") := by
  simp [Load, h, hm, ioutil.ReadAll, he]

/-- The loader is called once by lines 93–109, with the category handed over. -/
theorem loaderCalls_codes (c : CodeHandler) (w : List Event) (r : Request) (code : String) :
    loaderCalls (Load.codes c w r code).events = loaderCalls w ++ [(r.Context, code)] := by
  unfold Load.codes
  cases hc : c.Codes with
  | none => simp [loaderCalls, List.filterMap_append]
  | some load =>
    simp only
    rcases hl : load r.Context code with ⟨result, _ | er4⟩
    · simp only
      split <;> cases c.Log <;>
        simp [succeed, respond, loaderCalls, List.filterMap_append]
    · cases c.Log <;> cases c.Error <;>
        simp [respondError, respond, loaderCalls, List.filterMap_append]

/-- A run of `Load` in which the loader is called with `m` is a run of lines
93–109 on `m`, entered either directly or after the request body was read. -/
theorem Load_reaches (c : CodeHandler) (r : Request) (m : String)
    (h : (r.Context, m) ∈ loaderCalls (Load c r).events) :
    ∃ w, (w = [] ∨ w = [Event.ReadAll]) ∧ Load c r = Load.codes c w r m := by
  cases hreq : c.RequiredMaster with
  | false =>
    rw [Load_not_required c r hreq] at h ⊢
    rw [loaderCalls_codes] at h
    simp [loaderCalls] at h
    subst h
    exact ⟨[], Or.inl rfl, rfl⟩
  | true =>
    by_cases hm : r.Method = "GET"
    · by_cases hi : strings.LastIndex r.RequestURI "/" ≥ 0
      · rw [Load_get_slash c r hreq hm hi] at h ⊢
        rw [loaderCalls_codes] at h
        simp [loaderCalls] at h
        subst h
        exact ⟨[], Or.inl rfl, rfl⟩
      · rw [Load_get_no_slash c r hreq hm hi] at h ⊢
        rw [loaderCalls_codes] at h
        simp [loaderCalls] at h
        subst h
        exact ⟨[], Or.inl rfl, rfl⟩
    · cases he : r.Body.err with
      | some e =>
        rw [Load_body_unreadable c r hreq hm e he] at h
        simp [loaderCalls] at h
      | none =>
        rw [Load_body_readable c r hreq hm he] at h ⊢
        rw [loaderCalls_codes] at h
        simp [loaderCalls] at h
        subst h
        exact ⟨[Event.ReadAll], Or.inr rfl, rfl⟩

/-- Lines 93–109 when the loader reports an error. -/
theorem codes_of_error (c : CodeHandler) (w : List Event) (r : Request) (m : String)
    (load : LoadFunc) (rs : List CodeModel) (e : String) (hload : c.Codes = some load)
    (herr : load r.Context m = (rs, some e)) :
    Load.codes c w r m =
      ⟨respondError (w ++ [Event.Codes r.Context m]) r 500
        (Payload.text "Internal Server Error") c.Error c.Resource c.Action e c.Log, false⟩ := by
  simp [Load.codes, hload, herr, StatusInternalServerError, internalServerError]

/-- Lines 93–109 when the loader succeeds. -/
theorem codes_of_success (c : CodeHandler) (w : List Event) (r : Request) (m : String)
    (load : LoadFunc) (rs : List CodeModel) (hload : c.Codes = some load)
    (hok : load r.Context m = (rs, none)) :
    Load.codes c w r m =
      ⟨succeed (w ++ [Event.Codes r.Context m]) r 200
        (if c.Id = "" ∧ c.Name = "" then Payload.records rs
         else Payload.maps (rs.map (fun x => (GoMap.empty.set c.Id x.Id).set c.Name x.Name)))
        c.Log c.Resource c.Action, false⟩ := by
  simp only [Load.codes, hload, hok, StatusOK, string_length_eq_zero]
  split
  · rfl
  · rw [remap_foldl]
    rfl

/-- Every run of `Load` either ends with the 400 response to an unreadable body
or is a run of lines 93–109, entered directly or after the body was read. -/
theorem Load_cases (c : CodeHandler) (r : Request) :
    (c.RequiredMaster = true ∧ r.Method ≠ "GET" ∧ r.Body.err ≠ none ∧
      Load c r =
        ⟨[Event.ReadAll, Event.WriteHeader 400,
          Event.Write (Bytes.ofString "Body cannot is empty")], false⟩) ∨
    (∃ w m, (w = [] ∨ w = [Event.ReadAll]) ∧ Load c r = Load.codes c w r m) := by
  cases hreq : c.RequiredMaster with
  | false => exact Or.inr ⟨[], "", Or.inl rfl, Load_not_required c r hreq⟩
  | true =>
    by_cases hm : r.Method = "GET"
    · by_cases hi : strings.LastIndex r.RequestURI "/" ≥ 0
      · exact Or.inr ⟨[], _, Or.inl rfl, Load_get_slash c r hreq hm hi⟩
      · exact Or.inr ⟨[], _, Or.inl rfl, Load_get_no_slash c r hreq hm hi⟩
    · cases he : r.Body.err with
      | some e =>
        exact Or.inl ⟨rfl, hm, by simp, Load_body_unreadable c r hreq hm e he⟩
      | none => exact Or.inr ⟨[Event.ReadAll], _, Or.inr rfl, Load_body_readable c r hreq hm he⟩

/-- Lines 93–109 do not read the request body. -/
theorem bodyReads_codes (c : CodeHandler) (w : List Event) (r : Request) (code : String) :
    bodyReads (Load.codes c w r code).events = bodyReads w := by
  unfold Load.codes
  cases hc : c.Codes with
  | none => simp [bodyReads, List.filterMap_append]
  | some load =>
    simp only
    rcases hl : load r.Context code with ⟨result, _ | er4⟩
    · simp only
      split <;> cases c.Log <;>
        simp [succeed, respond, bodyReads, List.filterMap_append]
    · cases c.Log <;> cases c.Error <;>
        simp [respondError, respond, bodyReads, List.filterMap_append]

/-! ## The claims -/

/-- Claim C1.  On a request that reaches the loader, when the loader returns an
error with message `e`: the status written is 500; the body written is the JSON
encoding of the string `Internal Server Error`, whatever `e` is; the
error-reporting callback, when the handler has one, is called once, with `e`;
the audit logger, when the handler has one, is called once, with the handler's
resource and action, `success = false` and `e` as description. -/
theorem Load_loader_error (c : CodeHandler) (r : Request) (load : LoadFunc) (m e : String)
    (rs : List CodeModel) (hload : c.Codes = some load)
    (hcall : (r.Context, m) ∈ loaderCalls (Load c r).events)
    (herr : load r.Context m = (rs, some e)) :
    statuses (Load c r).events = [500] ∧
    written (Load c r).events = [Bytes.marshal (Payload.text "Internal Server Error")] ∧
    (∀ logError, c.Error = some logError →
      errorCalls (Load c r).events = [(r.Context, e)]) ∧
    (c.Error = none → errorCalls (Load c r).events = []) ∧
    (∀ writeLog, c.Log = some writeLog →
      logCalls (Load c r).events = [(r.Context, c.Resource, c.Action, false, e)]) ∧
    (c.Log = none → logCalls (Load c r).events = []) := by
  obtain ⟨w, hw, hrun⟩ := Load_reaches c r m hcall
  rw [hrun, codes_of_error c w r m load rs e hload herr]
  rcases hw with hw | hw <;> subst hw <;> cases c.Error <;> cases c.Log <;>
    simp [respondError, respond, statuses, written, errorCalls, logCalls,
      List.filterMap_append]

/-- Claim C2.  When a category is required, the request is not a GET and its
body cannot be read: the status written is 400, the body written is the text
`Body cannot is empty`, and neither the loader nor the error-reporting callback
nor the audit logger is called. -/
theorem Load_unreadable_body (c : CodeHandler) (r : Request) (e : String)
    (hreq : c.RequiredMaster = true) (hmethod : r.Method ≠ "GET")
    (hbody : (ioutil.ReadAll r.Body).2 = some e) :
    (Load c r).events =
      [Event.ReadAll, Event.WriteHeader 400,
        Event.Write (Bytes.ofString "Body cannot is empty")] ∧
    statuses (Load c r).events = [400] ∧
    written (Load c r).events = [Bytes.ofString "Body cannot is empty"] ∧
    loaderCalls (Load c r).events = [] ∧
    errorCalls (Load c r).events = [] ∧
    logCalls (Load c r).events = [] := by
  rw [Load_body_unreadable c r hreq hmethod e hbody]
  simp [statuses, written, loaderCalls, errorCalls, logCalls]

/-- Claim C3, as amended.  When a category is required and the request is a
GET, the loader is called once, with the part of `r.RequestURI`, the request
target with its query string, after its last `/`: the category has no `/`; it
is empty when the request target has no `/`; the request target is some text,
a `/`, and the category otherwise.  A request target ending in `/group/42`
gives `42`.  A request target without a query string is the request's path. -/
theorem Load_get_category (c : CodeHandler) (r : Request)
    (hreq : c.RequiredMaster = true) (hget : r.Method = "GET") :
    ∃ m : String,
      loaderCalls (Load c r).events = [(r.Context, m)] ∧
      '/' ∉ m.data ∧
      ('/' ∉ r.RequestURI.data → m = "") ∧
      ('/' ∈ r.RequestURI.data →
        ∃ pre : List Char, r.RequestURI.data = pre ++ '/' :: m.data) ∧
      (∀ p : String, r.RequestURI = p ++ "/group/42" → m = "42") ∧
      ('?' ∉ r.RequestURI.data → requestPath r.RequestURI = r.RequestURI) := by
  by_cases hi : strings.LastIndex r.RequestURI "/" ≥ 0
  · obtain ⟨pre, hsplit, hno⟩ := LastIndex_slash_nonneg r.RequestURI hi
    refine ⟨sliceFrom r.RequestURI (strings.LastIndex r.RequestURI "/" + 1), ?_, hno, ?_,
      ?_, ?_, requestPath_of_no_query r.RequestURI⟩
    · rw [Load_get_slash c r hreq hget hi, loaderCalls_codes]
      simp [loaderCalls]
    · intro h
      exact absurd (by rw [hsplit]; simp) h
    · intro _
      exact ⟨pre, hsplit⟩
    · intro p hp
      apply String.ext
      have h42 : '/' ∉ ("42" : String).data := by decide
      have hd : r.RequestURI.data = (p.data ++ "/group".data) ++ '/' :: ("42" : String).data := by
        rw [hp]
        simp
      exact after_last_slash_unique _ _ _ _ hno h42 (hsplit.symm.trans hd)
  · have hno := LastIndex_slash_neg r.RequestURI hi
    refine ⟨"", ?_, by decide, fun _ => rfl, ?_, ?_, requestPath_of_no_query r.RequestURI⟩
    · rw [Load_get_no_slash c r hreq hget hi, loaderCalls_codes]
      simp [loaderCalls]
    · intro h
      exact absurd h hno
    · intro p hp
      exfalso
      apply hno
      rw [hp]
      have : '/' ∈ ("/group/42" : String).data := by decide
      simp only [String.data_append, List.mem_append]
      exact Or.inr this

/-- Claim C4.  When a category is required, the request is not a GET and its
body is readable, the loader is called once, with the body stripped of its
leading and trailing spaces: the body is spaces, the category, spaces, and the
category neither starts nor ends with a space.  The body `  abc  ` gives
`abc`. -/
theorem Load_body_category (c : CodeHandler) (r : Request)
    (hreq : c.RequiredMaster = true) (hmethod : r.Method ≠ "GET")
    (hbody : (ioutil.ReadAll r.Body).2 = none) :
    ∃ m : String,
      loaderCalls (Load c r).events = [(r.Context, m)] ∧
      (∃ pre post : List Char,
        (ioutil.ReadAll r.Body).1.data = pre ++ m.data ++ post ∧
        (∀ x ∈ pre, x = ' ') ∧ (∀ x ∈ post, x = ' ')) ∧
      m.data.head? ≠ some ' ' ∧
      m.data.getLast? ≠ some ' ' ∧
      ((ioutil.ReadAll r.Body).1 = "  abc  " → m = "abc") := by
  refine ⟨strings.Trim r.Body.data " ", ?_, ?_, ?_, ?_, ?_⟩
  · rw [Load_body_readable c r hreq hmethod hbody, loaderCalls_codes]
    simp [loaderCalls]
  · obtain ⟨pre, post, h1, h2, h3, _, _⟩ := trim_space_spec r.Body.data.data
    exact ⟨pre, post, by rw [Trim_space_data]; exact h1, h2, h3⟩
  · obtain ⟨_, _, _, _, _, h4, _⟩ := trim_space_spec r.Body.data.data
    rw [Trim_space_data]
    exact h4
  · obtain ⟨_, _, _, _, _, _, h5⟩ := trim_space_spec r.Body.data.data
    rw [Trim_space_data]
    exact h5
  · intro h
    simp only [ioutil.ReadAll] at h
    rw [h]
    decide

/-- Claim C5.  When no category is required, whatever the method, the URI and
the body of the request, the loader is called exactly once, with the empty
string, and the request body is not read. -/
theorem Load_without_master (c : CodeHandler) (r : Request)
    (hreq : c.RequiredMaster = false) :
    loaderCalls (Load c r).events = [(r.Context, "")] ∧
    bodyReads (Load c r).events = 0 := by
  rw [Load_not_required c r hreq, loaderCalls_codes, bodyReads_codes]
  simp [loaderCalls, bodyReads]

/-- Claim C6, as amended.  On a request that reaches the loader, when the
loader returns the records `rs` without error and the id-label and name-label
are not both empty: the status written is 200 and the payload is a sequence of
mappings of the same length and order as `rs`.  When the two labels differ,
the `i`-th mapping has exactly two keys, the id-label mapped to the `i`-th
record's `Id` and the name-label mapped to its `Name`.  When the two labels
are equal, the `i`-th mapping has that label as its only key, mapped to the
`i`-th record's `Name`. -/
theorem Load_remapped (c : CodeHandler) (r : Request) (load : LoadFunc) (m : String)
    (rs : List CodeModel) (hload : c.Codes = some load)
    (hcall : (r.Context, m) ∈ loaderCalls (Load c r).events)
    (hok : load r.Context m = (rs, none))
    (hlabels : ¬ (c.Id = "" ∧ c.Name = "")) :
    statuses (Load c r).events = [200] ∧
    ∃ ms : List GoMap,
      written (Load c r).events = [Bytes.marshal (Payload.maps ms)] ∧
      ms.length = rs.length ∧
      (c.Id ≠ c.Name →
        ms = rs.map (fun x => ⟨[(c.Id, x.Id), (c.Name, x.Name)]⟩) ∧
        ∀ (i : Nat) (hi : i < ms.length) (hr : i < rs.length),
          (ms[i]).keys.length = 2 ∧
          (∀ k, k ∈ (ms[i]).keys ↔ k = c.Id ∨ k = c.Name) ∧
          (ms[i]).get? c.Id = some (rs[i]).Id ∧
          (ms[i]).get? c.Name = some (rs[i]).Name) ∧
      (c.Id = c.Name →
        ms = rs.map (fun x => ⟨[(c.Name, x.Name)]⟩) ∧
        ∀ (i : Nat) (hi : i < ms.length) (hr : i < rs.length),
          (ms[i]).keys = [c.Name] ∧
          (ms[i]).get? c.Name = some (rs[i]).Name) := by
  obtain ⟨w, hw, hrun⟩ := Load_reaches c r m hcall
  rw [hrun, codes_of_success c w r m load rs hload hok, if_neg hlabels]
  refine ⟨?_, rs.map (fun x => (GoMap.empty.set c.Id x.Id).set c.Name x.Name), ?_, ?_, ?_, ?_⟩
  · rcases hw with hw | hw <;> subst hw <;> cases c.Log <;>
      simp [succeed, respond, statuses, List.filterMap_append]
  · rcases hw with hw | hw <;> subst hw <;> cases c.Log <;>
      simp [succeed, respond, written, List.filterMap_append]
  · simp
  · intro hne
    have hmap : rs.map (fun x => (GoMap.empty.set c.Id x.Id).set c.Name x.Name) =
        rs.map (fun x => (⟨[(c.Id, x.Id), (c.Name, x.Name)]⟩ : GoMap)) := by
      apply List.map_congr_left
      intro x _
      rw [GoMap.set_set_empty, if_neg hne]
    rw [hmap]
    refine ⟨rfl, ?_⟩
    intro i hi hr
    have hne' : ¬ c.Name = c.Id := fun h => hne h.symm
    rw [List.getElem_map]
    refine ⟨by simp [GoMap.keys], ?_, by simp [GoMap.get?], ?_⟩
    · intro k
      simp [GoMap.keys]
    · have hb : (c.Id == c.Name) = false := by simpa using hne
      simp [GoMap.get?, List.find?, hb]
  · intro heq
    have hmap : rs.map (fun x => (GoMap.empty.set c.Id x.Id).set c.Name x.Name) =
        rs.map (fun x => (⟨[(c.Name, x.Name)]⟩ : GoMap)) := by
      apply List.map_congr_left
      intro x _
      rw [GoMap.set_set_empty, if_pos heq]
    rw [hmap]
    refine ⟨rfl, ?_⟩
    intro i hi hr
    rw [List.getElem_map]
    exact ⟨by simp [GoMap.keys], by simp [GoMap.get?]⟩

/-- Claim C7.  On a request that reaches the loader, when the loader returns
the records `rs` without error and the id-label and name-label are both empty:
the status written is 200, the content type set is `application/json`, and the
payload serialized into the body is `rs` itself. -/
theorem Load_raw_records (c : CodeHandler) (r : Request) (load : LoadFunc) (m : String)
    (rs : List CodeModel) (hload : c.Codes = some load)
    (hcall : (r.Context, m) ∈ loaderCalls (Load c r).events)
    (hok : load r.Context m = (rs, none))
    (hid : c.Id = "") (hname : c.Name = "") :
    statuses (Load c r).events = [200] ∧
    headers (Load c r).events = [("Content-Type", "application/json")] ∧
    written (Load c r).events = [Bytes.marshal (Payload.records rs)] := by
  obtain ⟨w, hw, hrun⟩ := Load_reaches c r m hcall
  rw [hrun, codes_of_success c w r m load rs hload hok, if_pos ⟨hid, hname⟩]
  rcases hw with hw | hw <;> subst hw <;> cases c.Log <;>
    simp [succeed, respond, statuses, headers, written, List.filterMap_append]

/-- Claim C8, as amended.  For a handler that has a loader, whether or not it
has an error-reporting callback and an audit logger, `Load` does not fault and
completes with a response (one status code and one body are written); the
call of an absent callback is skipped. -/
theorem Load_absent_callbacks (c : CodeHandler) (r : Request) (load : LoadFunc)
    (hload : c.Codes = some load) :
    (Load c r).panicked = false ∧
    (statuses (Load c r).events).length = 1 ∧
    (written (Load c r).events).length = 1 ∧
    (c.Error = none → errorCalls (Load c r).events = []) ∧
    (c.Log = none → logCalls (Load c r).events = []) := by
  rcases Load_cases c r with ⟨_, _, _, hrun⟩ | ⟨w, m, hw, hrun⟩
  · rw [hrun]
    simp [statuses, written, errorCalls, logCalls]
  · rw [hrun]
    rcases hl : load r.Context m with ⟨rs, _ | e⟩
    · rw [codes_of_success c w r m load rs hload hl]
      rcases hw with hw | hw <;> subst hw <;> cases c.Error <;> cases c.Log <;>
        simp [succeed, respond, statuses, written, errorCalls, logCalls,
          List.filterMap_append]
    · rw [codes_of_error c w r m load rs e hload hl]
      rcases hw with hw | hw <;> subst hw <;> cases c.Error <;> cases c.Log <;>
        simp [respondError, respond, statuses, written, errorCalls, logCalls,
          List.filterMap_append]

/-- Claim C9.  Every constructor sets `Resource` to the resource name supplied
to it when one is supplied and not empty, and to `code` otherwise, and `Action`
to the action name supplied when one is supplied and not empty, and to `load`
otherwise; `NewCodeHandler` and `NewDefaultCodeHandler` take no names.  Neither
field of a constructed handler is empty. -/
theorem constructors_resource_action (load : Option LoadFunc) (logError : Option ErrorFunc)
    (requiredMaster : Bool) (writeLog : Option LogFunc) (names : List String)
    (logs : List (Option LogFunc)) (cfg : CodeHandlerConfig) :
    ((∀ s, names[0]? = some s → s ≠ "" →
        (NewCodeHandlerWithLog load logError requiredMaster writeLog names).Resource = s) ∧
      (names[0]? = none ∨ names[0]? = some "" →
        (NewCodeHandlerWithLog load logError requiredMaster writeLog names).Resource = "code") ∧
      (∀ s, names[1]? = some s → s ≠ "" →
        (NewCodeHandlerWithLog load logError requiredMaster writeLog names).Action = s) ∧
      (names[1]? = none ∨ names[1]? = some "" →
        (NewCodeHandlerWithLog load logError requiredMaster writeLog names).Action = "load") ∧
      (NewCodeHandlerWithLog load logError requiredMaster writeLog names).Resource ≠ "" ∧
      (NewCodeHandlerWithLog load logError requiredMaster writeLog names).Action ≠ "") ∧
    ((cfg.Resource ≠ "" →
        (NewCodeHandlerByConfig load cfg logError logs).Resource = cfg.Resource) ∧
      (cfg.Resource = "" → (NewCodeHandlerByConfig load cfg logError logs).Resource = "code") ∧
      (cfg.Action ≠ "" →
        (NewCodeHandlerByConfig load cfg logError logs).Action = cfg.Action) ∧
      (cfg.Action = "" → (NewCodeHandlerByConfig load cfg logError logs).Action = "load") ∧
      (NewCodeHandlerByConfig load cfg logError logs).Resource ≠ "" ∧
      (NewCodeHandlerByConfig load cfg logError logs).Action ≠ "") ∧
    ((NewCodeHandler load logError requiredMaster logs).Resource = "code" ∧
      (NewCodeHandler load logError requiredMaster logs).Action = "load") ∧
    ((NewDefaultCodeHandler load logError logs).Resource = "code" ∧
      (NewDefaultCodeHandler load logError logs).Action = "load") := by
  have hcode : ("code" : String) ≠ "" := by decide
  have hload : ("load" : String) ≠ "" := by decide
  refine ⟨?_, ?_, ⟨rfl, rfl⟩, ⟨rfl, rfl⟩⟩
  · rcases names with _ | ⟨a, _ | ⟨b, rest⟩⟩
    · simp [NewCodeHandlerWithLog]
    · by_cases ha : a = ""
      · simp [NewCodeHandlerWithLog, ha]
      · simp [NewCodeHandlerWithLog, ha, string_length_eq_zero, Nat.pos_iff_ne_zero]
    · by_cases ha : a = "" <;> by_cases hb : b = "" <;>
        simp [NewCodeHandlerWithLog, ha, hb, string_length_eq_zero, Nat.pos_iff_ne_zero]
  · by_cases ha : cfg.Resource = "" <;> by_cases hb : cfg.Action = "" <;>
      simp [NewCodeHandlerByConfig, NewCodeHandlerWithLog, ha, hb, string_length_eq_zero,
        Nat.pos_iff_ne_zero]

/-- Claim C10.  On a request that reaches the loader, when the handler has an
audit logger and the loader returns without error: the run ends with the
content type being set, the status 200 and the body being written, and then
the single call of the audit logger, made with the handler's resource and
action, `success = true` and an empty description; the payload is the records
themselves when both labels are empty and their remapping otherwise; the
error-reporting callback is not called. -/
theorem Load_success_audit (c : CodeHandler) (r : Request) (load : LoadFunc)
    (writeLog : LogFunc) (m : String) (rs : List CodeModel)
    (hlog : c.Log = some writeLog) (hload : c.Codes = some load)
    (hcall : (r.Context, m) ∈ loaderCalls (Load c r).events)
    (hok : load r.Context m = (rs, none)) :
    ∃ (pre : List Event) (p : Payload),
      (Load c r).events =
        pre ++ [Event.HeaderSet "Content-Type" "application/json", Event.WriteHeader 200,
          Event.Write (Bytes.marshal p),
          Event.Log r.Context c.Resource c.Action true ""] ∧
      statuses pre = [] ∧ written pre = [] ∧ logCalls pre = [] ∧
      (c.Id = "" ∧ c.Name = "" → p = Payload.records rs) ∧
      (¬ (c.Id = "" ∧ c.Name = "") → ∃ ms, p = Payload.maps ms ∧ ms.length = rs.length) ∧
      logCalls (Load c r).events = [(r.Context, c.Resource, c.Action, true, "")] ∧
      errorCalls (Load c r).events = [] := by
  obtain ⟨w, hw, hrun⟩ := Load_reaches c r m hcall
  rw [hrun, codes_of_success c w r m load rs hload hok, hlog]
  refine ⟨w ++ [Event.Codes r.Context m],
    (if c.Id = "" ∧ c.Name = "" then Payload.records rs
     else Payload.maps (rs.map (fun x => (GoMap.empty.set c.Id x.Id).set c.Name x.Name))),
    ?_, ?_, ?_, ?_, ?_, ?_, ?_, ?_⟩
  · simp [succeed, respond]
  · rcases hw with hw | hw <;> subst hw <;> simp [statuses]
  · rcases hw with hw | hw <;> subst hw <;> simp [written]
  · rcases hw with hw | hw <;> subst hw <;> simp [logCalls]
  · intro h
    rw [if_pos h]
  · intro h
    rw [if_neg h]
    exact ⟨_, rfl, by simp⟩
  · rcases hw with hw | hw <;> subst hw <;>
      simp [succeed, respond, logCalls, List.filterMap_append]
  · rcases hw with hw | hw <;> subst hw <;>
      simp [succeed, respond, errorCalls, List.filterMap_append]

/-! ## The claims at the examples -/

/-- Claim C1 at the example handler and a request for an unknown category. -/
theorem Load_loader_error_witness :
    exampleHandler.Codes = some exampleLoader ∧
    (exampleUnknownGet.Context, "7") ∈
      loaderCalls (Load exampleHandler exampleUnknownGet).events ∧
    exampleLoader exampleUnknownGet.Context "7" = ([], some "unknown category") ∧
    statuses (Load exampleHandler exampleUnknownGet).events = [500] ∧
    written (Load exampleHandler exampleUnknownGet).events =
      [Bytes.marshal (Payload.text "Internal Server Error")] :=
  ⟨rfl, by decide, rfl,
    (Load_loader_error exampleHandler exampleUnknownGet exampleLoader "7" "unknown category" []
      rfl (by decide) rfl).1,
    (Load_loader_error exampleHandler exampleUnknownGet exampleLoader "7" "unknown category" []
      rfl (by decide) rfl).2.1⟩

/-- Claim C2 at the example handler and a request whose body breaks off. -/
theorem Load_unreadable_body_witness :
    exampleHandler.RequiredMaster = true ∧ exampleBrokenPost.Method ≠ "GET" ∧
    (ioutil.ReadAll exampleBrokenPost.Body).2 = some "unexpected EOF" ∧
    statuses (Load exampleHandler exampleBrokenPost).events = [400] ∧
    written (Load exampleHandler exampleBrokenPost).events =
      [Bytes.ofString "Body cannot is empty"] ∧
    loaderCalls (Load exampleHandler exampleBrokenPost).events = [] :=
  ⟨rfl, by decide, rfl,
    (Load_unreadable_body exampleHandler exampleBrokenPost "unexpected EOF" rfl (by decide)
      rfl).2.1,
    (Load_unreadable_body exampleHandler exampleBrokenPost "unexpected EOF" rfl (by decide)
      rfl).2.2.1,
    (Load_unreadable_body exampleHandler exampleBrokenPost "unexpected EOF" rfl (by decide)
      rfl).2.2.2.1⟩

/-- Claim C3 fails for a request target with a query string.  The path of
`GET /api/group/42?lang=en` is `/api/group/42`, whose part after the last `/`
is `42`, and the loader is called with `42?lang=en`.  The path of
`GET /api/group/7?next=/x/42` is `/api/group/7`, whose part after the last `/`
is `7`, and the loader is called with `42`. -/
theorem Load_get_query_in_category :
    exampleHandler.RequiredMaster = true ∧
    exampleQueryGet.Method = "GET" ∧
    requestPath exampleQueryGet.RequestURI = "/api/group/42" ∧
    loaderCalls (Load exampleHandler exampleQueryGet).events =
      [(exampleQueryGet.Context, "42?lang=en")] ∧
    exampleQuerySlashGet.Method = "GET" ∧
    requestPath exampleQuerySlashGet.RequestURI = "/api/group/7" ∧
    loaderCalls (Load exampleHandler exampleQuerySlashGet).events =
      [(exampleQuerySlashGet.Context, "42")] := by
  decide

/-- Claim C3, as amended, at the example handler and the request
`GET /api/group/42`. -/
theorem Load_get_category_witness :
    exampleHandler.RequiredMaster = true ∧ exampleGet.Method = "GET" ∧
    loaderCalls (Load exampleHandler exampleGet).events = [(exampleGet.Context, "42")] ∧
    requestPath exampleGet.RequestURI = exampleGet.RequestURI := by
  refine ⟨rfl, rfl, ?_, ?_⟩
  · obtain ⟨m, h1, _, _, _, h5, _⟩ := Load_get_category exampleHandler exampleGet rfl rfl
    have hm : m = "42" := h5 "/api" (by decide)
    rw [h1, hm]
  · obtain ⟨_, _, _, _, _, _, h6⟩ := Load_get_category exampleHandler exampleGet rfl rfl
    exact h6 (by decide)

/-- Claim C4 at the example handler and a request with the body `  abc  `. -/
theorem Load_body_category_witness :
    exampleHandler.RequiredMaster = true ∧ examplePost.Method ≠ "GET" ∧
    (ioutil.ReadAll examplePost.Body).2 = none ∧
    loaderCalls (Load exampleHandler examplePost).events = [(examplePost.Context, "abc")] := by
  refine ⟨rfl, by decide, rfl, ?_⟩
  obtain ⟨m, h1, _, _, _, h5⟩ :=
    Load_body_category exampleHandler examplePost rfl (by decide) rfl
  have hm : m = "abc" := h5 rfl
  rw [h1, hm]

/-- Claim C5 at a handler that requires no category. -/
theorem Load_without_master_witness :
    exampleOpenHandler.RequiredMaster = false ∧
    loaderCalls (Load exampleOpenHandler examplePost).events = [(examplePost.Context, "")] ∧
    bodyReads (Load exampleOpenHandler examplePost).events = 0 :=
  ⟨rfl, Load_without_master exampleOpenHandler examplePost rfl⟩

/-- Claim C6 fails when the id-label and the name-label are the same label:
with both labels `code`, each record becomes a mapping with the one key
`code`, which holds the record's `Name`; the record's `Id` is not in it. -/
theorem Load_same_label_one_key :
    ¬ (exampleSameLabelHandler.Id = "" ∧ exampleSameLabelHandler.Name = "") ∧
    written (Load exampleSameLabelHandler exampleGet).events =
      [Bytes.marshal (Payload.maps [⟨[("code", "A")]⟩, ⟨[("code", "B")]⟩])] ∧
    (GoMap.keys ⟨[("code", "A")]⟩).length ≠ 2 ∧
    GoMap.get? ⟨[("code", "A")]⟩ exampleSameLabelHandler.Id ≠ some "1" := by
  decide

/-- Claim C6, as amended, at the labels `code` and `label` and the two example
records. -/
theorem Load_remapped_witness :
    exampleRemapHandler.Codes = some exampleLoader ∧
    (exampleGet.Context, "42") ∈ loaderCalls (Load exampleRemapHandler exampleGet).events ∧
    exampleLoader exampleGet.Context "42" = (exampleRecords, none) ∧
    ¬ (exampleRemapHandler.Id = "" ∧ exampleRemapHandler.Name = "") ∧
    statuses (Load exampleRemapHandler exampleGet).events = [200] ∧
    written (Load exampleRemapHandler exampleGet).events =
      [Bytes.marshal (Payload.maps
        [⟨[("code", "1"), ("label", "A")]⟩, ⟨[("code", "2"), ("label", "B")]⟩])] := by
  have h := Load_remapped exampleRemapHandler exampleGet exampleLoader "42" exampleRecords
    rfl (by decide) rfl (by decide)
  refine ⟨rfl, by decide, rfl, by decide, h.1, ?_⟩
  obtain ⟨ms, h1, _, h3, _⟩ := h.2
  rw [h1, (h3 (by decide)).1]
  rfl

/-- Claim C7 at the example handler and the two example records. -/
theorem Load_raw_records_witness :
    exampleHandler.Codes = some exampleLoader ∧
    (exampleGet.Context, "42") ∈ loaderCalls (Load exampleHandler exampleGet).events ∧
    exampleLoader exampleGet.Context "42" = (exampleRecords, none) ∧
    exampleHandler.Id = "" ∧ exampleHandler.Name = "" ∧
    statuses (Load exampleHandler exampleGet).events = [200] ∧
    headers (Load exampleHandler exampleGet).events = [("Content-Type", "application/json")] ∧
    written (Load exampleHandler exampleGet).events =
      [Bytes.marshal (Payload.records [⟨"1", "A"⟩, ⟨"2", "B"⟩])] :=
  ⟨rfl, by decide, rfl, rfl, rfl,
    Load_raw_records exampleHandler exampleGet exampleLoader "42" exampleRecords rfl
      (by decide) rfl rfl rfl⟩

/-- Claim C8 fails for a handler without a loader: the call of the nil loader
is a run-time panic, and no status code and no body is written. -/
theorem Load_nil_loader_panics :
    exampleNoLoaderHandler.Codes = none ∧
    (Load exampleNoLoaderHandler exampleGet).panicked = true ∧
    statuses (Load exampleNoLoaderHandler exampleGet).events = [] ∧
    written (Load exampleNoLoaderHandler exampleGet).events = [] := by
  refine ⟨rfl, ?_, ?_, ?_⟩ <;> decide

/-- Claim C8, as amended, at a handler that has a loader and no callbacks. -/
theorem Load_absent_callbacks_witness :
    exampleBareHandler.Codes = some exampleLoader ∧
    exampleBareHandler.Error = none ∧ exampleBareHandler.Log = none ∧
    (Load exampleBareHandler exampleGet).panicked = false ∧
    (statuses (Load exampleBareHandler exampleGet).events).length = 1 ∧
    (written (Load exampleBareHandler exampleGet).events).length = 1 ∧
    errorCalls (Load exampleBareHandler exampleGet).events = [] ∧
    logCalls (Load exampleBareHandler exampleGet).events = [] :=
  ⟨rfl, rfl, rfl,
    (Load_absent_callbacks exampleBareHandler exampleGet exampleLoader rfl).1,
    (Load_absent_callbacks exampleBareHandler exampleGet exampleLoader rfl).2.1,
    (Load_absent_callbacks exampleBareHandler exampleGet exampleLoader rfl).2.2.1,
    (Load_absent_callbacks exampleBareHandler exampleGet exampleLoader rfl).2.2.2.1 rfl,
    (Load_absent_callbacks exampleBareHandler exampleGet exampleLoader rfl).2.2.2.2 rfl⟩

/-- Claim C10 at the example handler and the request `GET /api/group/42`. -/
theorem Load_success_audit_witness :
    exampleHandler.Log = some exampleLog ∧ exampleHandler.Codes = some exampleLoader ∧
    (exampleGet.Context, "42") ∈ loaderCalls (Load exampleHandler exampleGet).events ∧
    exampleLoader exampleGet.Context "42" = (exampleRecords, none) ∧
    logCalls (Load exampleHandler exampleGet).events =
      [(exampleGet.Context, "code", "load", true, "")] ∧
    errorCalls (Load exampleHandler exampleGet).events = [] := by
  obtain ⟨_, _, _, _, _, _, _, _, h1, h2⟩ :=
    Load_success_audit exampleHandler exampleGet exampleLoader exampleLog "42" exampleRecords
      rfl rfl (by decide) rfl
  exact ⟨rfl, rfl, by decide, rfl, h1, h2⟩

end code
